import Mathlib

/-!
Shallow embedding of `syswatch` (src/app.rs): CPU tick delta engine,
bounded history buffers, process ranking and selection continuity.

Modelling conventions:
* `u64` values are `ℕ`; where the source performs `u64` addition whose
  result could exceed the machine range, the embedding reduces modulo
  `U64MOD = 2 ^ 64` (release-mode wrapping semantics).  The tick provider
  `get_cpu_ticks` widens `u32` kernel counters via `u64::from`, so real
  snapshots satisfy `Ticks.wf` (every field `< 2 ^ 32`) and no wrap occurs.
* `f64` arithmetic on percentages is modelled as exact arithmetic over `ℚ`.
* `f32` process CPU usage is modelled as `Option ℚ`: `none` stands for NaN
  (the one non-comparable value class relevant to the comparator), `some q`
  for an ordinary finite float.
* The `sysinfo`/Mach providers are out of scope; each cycle's raw readings
  enter as explicit parameters (`Option Ticks`, inventory, counters).
-/

namespace Syswatch

/-- `2 ^ 64`, the modulus of Rust `u64` arithmetic. -/
def U64MOD : ℕ := 2 ^ 64

/-- Maximum number of data-points kept per history deque (src/app.rs line 19). -/
def HISTORY_LEN : ℕ := 180

/-- Rust `u64::saturating_sub`: subtraction floored at zero.  On `ℕ` this is
exactly truncated subtraction. -/
def saturating_sub (a b : ℕ) : ℕ := a - b

/-- A raw CPU tick snapshot `[user, system, idle, nice]` as returned by
`get_cpu_ticks` (src/app.rs lines 43-62). -/
structure Ticks where
  user : ℕ
  system : ℕ
  idle : ℕ
  nice : ℕ
deriving DecidableEq

/-- Well-formedness of a snapshot produced by `get_cpu_ticks`: the Mach
counters are `u32` values widened with `u64::from`, so every field is
below `2 ^ 32`. -/
def Ticks.wf (t : Ticks) : Prop :=
  t.user < 2 ^ 32 ∧ t.system < 2 ^ 32 ∧ t.idle < 2 ^ 32 ∧ t.nice < 2 ^ 32

instance (t : Ticks) : Decidable t.wf :=
  inferInstanceAs
    (Decidable (t.user < 2 ^ 32 ∧ t.system < 2 ^ 32 ∧ t.idle < 2 ^ 32 ∧ t.nice < 2 ^ 32))

/-- Snapshot of a single process shown in the table (src/app.rs lines 142-152).
`cpu_usage` is the `f32` usage, modelled as `Option ℚ` with `none` for NaN. -/
structure ProcessInfo where
  pid : ℕ
  name : String
  cpu_usage : Option ℚ
  memory : ℕ
deriving DecidableEq

/-- `f32::partial_cmp` on the `Option ℚ` float model: two ordinary values
compare by order, any comparison involving NaN (`none`) is undefined. -/
def fcmp : Option ℚ → Option ℚ → Option Ordering
  | some a, some b => some (if a < b then Ordering.lt else if b < a then Ordering.gt else Ordering.eq)
  | some _, none => none
  | none, _ => none

/-- The sort comparator of `update_processes` (src/app.rs lines 313-317):
`b.cpu_usage.partial_cmp(&a.cpu_usage).unwrap_or(Ordering::Equal)` —
descending by usage, with non-comparable pairs falling back to `Equal`. -/
def proc_cmp (a b : ProcessInfo) : Ordering :=
  (fcmp b.cpu_usage a.cpu_usage).getD Ordering.eq

/-- "`a` may come no later than `b`" under `proc_cmp`: the comparator does
not strictly order `a` after `b`.  A stable sort by `proc_cmp` is a stable
sort by this relation. -/
def proc_le (a b : ProcessInfo) : Prop := proc_cmp a b ≠ Ordering.gt

instance : DecidableRel proc_le := fun a b =>
  inferInstanceAs (Decidable (proc_cmp a b ≠ Ordering.gt))

/-- The ranking step of `update_processes`: the stable order produced by a
completed run of Rust's `slice::sort_by` with the `proc_cmp` comparator,
modelled by the stable insertion sort.  Caveat: whenever `proc_cmp` is a
total order (in particular on every NaN-free inventory) a completed
`slice::sort_by` yields exactly this list, but on NaN-carrying inventories
`proc_cmp` is not a total order and the standard sort of the toolchain this
code requires (Rust ≥ 1.81's driftsort) is documented to panic on such
comparators — a failure path a total Lean function cannot represent, and
which this model therefore deliberately does not claim to cover. -/
def sort_processes (l : List ProcessInfo) : List ProcessInfo :=
  List.insertionSort proc_le l

/-- `f32` `>=` on the `Option ℚ` float model: false whenever either side
is NaN, otherwise the ordinary order. -/
def cpu_ge : Option ℚ → Option ℚ → Prop
  | some a, some b => b ≤ a
  | some _, none => False
  | none, _ => False

instance : ∀ x y, Decidable (cpu_ge x y)
  | some a, some b => inferInstanceAs (Decidable (b ≤ a))
  | some _, none => inferInstanceAs (Decidable False)
  | none, _ => inferInstanceAs (Decidable False)

/-- Rust `Iterator::position`: index of the first element satisfying `p`. -/
def position (p : α → Bool) : List α → Option ℕ
  | [] => none
  | a :: l => if p a then some 0 else (position p l).map (· + 1)

/-- Pushes `value` into `buf`, evicting the oldest entry when full
(src/app.rs lines 335-341).  The `VecDeque` front is the list head. -/
def push_bounded (buf : List α) (value : α) (max : ℕ) : List α :=
  (if max ≤ buf.length then buf.tail else buf) ++ [value]

/-- Central application state (src/app.rs lines 154-187).  `table_selected`
models `table_state.selected()` of the ratatui `TableState`; the
`sysinfo::System` handle is replaced by per-tick inputs. -/
structure App where
  prev_ticks : Option Ticks
  tick_count : ℕ
  system_pct : ℚ
  user_pct : ℚ
  idle_pct : ℚ
  system_history : List (ℚ × ℚ)
  user_history : List (ℚ × ℚ)
  thread_count : ℕ
  total_memory : ℕ
  used_memory : ℕ
  processes : List ProcessInfo
  table_selected : Option ℕ
  selected_pid : Option ℕ
deriving DecidableEq

/-- `App::new` (src/app.rs lines 190-215) with the initial `get_cpu_ticks()`
reading passed in as `t0`. -/
def App.init (t0 : Option Ticks) : App where
  prev_ticks := t0
  tick_count := 0
  system_pct := 0
  user_pct := 0
  idle_pct := 0
  system_history := []
  user_history := []
  thread_count := 0
  total_memory := 0
  used_memory := 0
  processes := []
  table_selected := some 0
  selected_pid := none

/-- `App::update_cpu_split` (src/app.rs lines 246-287) with the
`get_cpu_ticks()` reading passed in as `now?`. -/
def update_cpu_split (s : App) (now? : Option Ticks) : App :=
  match now? with
  | none =>
      { s with
        system_history :=
          push_bounded s.system_history ((s.tick_count : ℚ), s.system_pct) HISTORY_LEN
        user_history :=
          push_bounded s.user_history ((s.tick_count : ℚ), s.user_pct) HISTORY_LEN }
  | some now =>
      let s1 :=
        match s.prev_ticks with
        | some prev =>
            let d_user := saturating_sub now.user prev.user
            let d_system := saturating_sub now.system prev.system
            let d_idle := saturating_sub now.idle prev.idle
            let d_nice := saturating_sub now.nice prev.nice
            let total := (d_user + d_system + d_idle + d_nice) % U64MOD
            if 0 < total then
              { s with
                user_pct := (((d_user + d_nice) % U64MOD : ℕ) : ℚ) / (total : ℚ) * 100
                system_pct := ((d_system : ℕ) : ℚ) / (total : ℚ) * 100
                idle_pct := ((d_idle : ℕ) : ℚ) / (total : ℚ) * 100 }
            else s
        | none => s
      let s2 := { s1 with prev_ticks := some now }
      { s2 with
        system_history :=
          push_bounded s2.system_history ((s2.tick_count : ℚ), s2.system_pct) HISTORY_LEN
        user_history :=
          push_bounded s2.user_history ((s2.tick_count : ℚ), s2.user_pct) HISTORY_LEN }

/-- `App::restore_selection` (src/app.rs lines 323-332): re-select the
previously highlighted PID after a sort shuffle; no-op when no PID is
stored or the PID is gone from the list. -/
def restore_selection (s : App) : App :=
  match s.selected_pid with
  | none => s
  | some pid =>
      match position (fun p => p.pid == pid) s.processes with
      | some i => { s with table_selected := some i }
      | none => s

/-- External readings consumed by one `App::tick` cycle. -/
structure TickInput where
  cpu_ticks : Option Ticks
  inventory : List ProcessInfo
  total_memory : ℕ
  used_memory : ℕ
  thread_count : ℕ

/-- `App::update_processes` (src/app.rs lines 289-321) with the `sysinfo`
refresh results passed in: store memory totals, rank the raw inventory,
then restore the selection. -/
def update_processes (s : App) (inp : TickInput) : App :=
  restore_selection
    { s with
      total_memory := inp.total_memory
      used_memory := inp.used_memory
      processes := sort_processes inp.inventory }

/-- `App::tick` (src/app.rs lines 217-223): one full sampling cycle. -/
def tick (s : App) (inp : TickInput) : App :=
  let s1 := update_cpu_split s inp.cpu_ticks
  let s2 := update_processes s1 inp
  let s3 := { s2 with thread_count := inp.thread_count }
  { s3 with tick_count := s3.tick_count + 1 }

/-- Folds a whole sequence of appends into an initially empty bounded
history, as the per-cycle pushes do over a run of the program. -/
def append_all (xs : List α) : List α :=
  xs.foldl (fun b v => push_bounded b v HISTORY_LEN) []

/-- The `d_user` delta bound in `update_cpu_split` (src/app.rs line 263). -/
def d_user (now prev : Ticks) : ℕ := saturating_sub now.user prev.user

/-- The `d_system` delta bound in `update_cpu_split` (src/app.rs line 264). -/
def d_system (now prev : Ticks) : ℕ := saturating_sub now.system prev.system

/-- The `d_idle` delta bound in `update_cpu_split` (src/app.rs line 265). -/
def d_idle (now prev : Ticks) : ℕ := saturating_sub now.idle prev.idle

/-- The `d_nice` delta bound in `update_cpu_split` (src/app.rs line 266). -/
def d_nice (now prev : Ticks) : ℕ := saturating_sub now.nice prev.nice

/-- The mathematical total of the four deltas (the code's `total` before
`u64` wrapping; under `Ticks.wf` no wrap occurs). -/
def d_total (now prev : Ticks) : ℕ :=
  d_user now prev + d_system now prev + d_idle now prev + d_nice now prev

lemma d_total_lt_of_wf (now prev : Ticks) (h : now.wf) : d_total now prev < U64MOD := by
  obtain ⟨h1, h2, h3, h4⟩ := h
  simp only [d_total, d_user, d_system, d_idle, d_nice, saturating_sub, U64MOD]
  omega

/-- Branch characterization: absent current snapshot (src/app.rs lines 248-260). -/
lemma update_cpu_split_none (s : App) :
    update_cpu_split s none =
      { s with
        system_history :=
          push_bounded s.system_history ((s.tick_count : ℚ), s.system_pct) HISTORY_LEN
        user_history :=
          push_bounded s.user_history ((s.tick_count : ℚ), s.user_pct) HISTORY_LEN } := rfl

/-- Branch characterization: both snapshots present, positive delta total. -/
lemma update_cpu_split_pos (s : App) (prev now : Ticks)
    (h : s.prev_ticks = some prev)
    (hlt : d_total now prev < U64MOD)
    (hpos : 0 < d_total now prev) :
    update_cpu_split s (some now) =
      { s with
        prev_ticks := some now
        user_pct :=
          ((d_user now prev + d_nice now prev : ℕ) : ℚ) / ((d_total now prev : ℕ) : ℚ) * 100
        system_pct := ((d_system now prev : ℕ) : ℚ) / ((d_total now prev : ℕ) : ℚ) * 100
        idle_pct := ((d_idle now prev : ℕ) : ℚ) / ((d_total now prev : ℕ) : ℚ) * 100
        system_history :=
          push_bounded s.system_history
            ((s.tick_count : ℚ),
              ((d_system now prev : ℕ) : ℚ) / ((d_total now prev : ℕ) : ℚ) * 100) HISTORY_LEN
        user_history :=
          push_bounded s.user_history
            ((s.tick_count : ℚ),
              ((d_user now prev + d_nice now prev : ℕ) : ℚ) / ((d_total now prev : ℕ) : ℚ) * 100)
            HISTORY_LEN } := by
  have e1 : (d_user now prev + d_system now prev + d_idle now prev + d_nice now prev) % U64MOD
      = d_total now prev := by
    rw [← d_total]; exact Nat.mod_eq_of_lt hlt
  have e2 : (d_user now prev + d_nice now prev) % U64MOD = d_user now prev + d_nice now prev := by
    apply Nat.mod_eq_of_lt
    have : d_user now prev + d_nice now prev ≤ d_total now prev := by
      simp only [d_total]; omega
    omega
  simp only [update_cpu_split, h, d_user, d_system, d_idle, d_nice] at *
  rw [e1, e2, if_pos hpos]

/-- Branch characterization: both snapshots present, zero delta total. -/
lemma update_cpu_split_zero (s : App) (prev now : Ticks)
    (h : s.prev_ticks = some prev)
    (hz : d_total now prev = 0) :
    update_cpu_split s (some now) =
      { s with
        prev_ticks := some now
        system_history :=
          push_bounded s.system_history ((s.tick_count : ℚ), s.system_pct) HISTORY_LEN
        user_history :=
          push_bounded s.user_history ((s.tick_count : ℚ), s.user_pct) HISTORY_LEN } := by
  have e1 : (d_user now prev + d_system now prev + d_idle now prev + d_nice now prev) % U64MOD
      = 0 := by
    rw [← d_total, hz]
    simp
  simp only [update_cpu_split, h, d_user, d_system, d_idle, d_nice] at *
  rw [e1]
  simp

/-- C1: with both snapshots present and a positive delta total,
`update_cpu_split` sets `user_pct = (Δuser+Δnice)/total*100`,
`system_pct = Δsystem/total*100`, `idle_pct = Δidle/total*100`; in
particular previous `[100,50,800,0]` and current `[110,55,850,0]` give
deltas `[10,5,50,0]`, total `65`, and percentages `≈15.38 / ≈7.69 / ≈76.92`. -/
theorem c1_cpu_percentage_formulas :
    (∀ (s : App) (prev now : Ticks), s.prev_ticks = some prev → now.wf →
        0 < d_total now prev →
        (update_cpu_split s (some now)).user_pct =
            ((d_user now prev + d_nice now prev : ℕ) : ℚ) / (d_total now prev : ℚ) * 100 ∧
        (update_cpu_split s (some now)).system_pct =
            (d_system now prev : ℚ) / (d_total now prev : ℚ) * 100 ∧
        (update_cpu_split s (some now)).idle_pct =
            (d_idle now prev : ℚ) / (d_total now prev : ℚ) * 100) ∧
    (d_user ⟨110, 55, 850, 0⟩ ⟨100, 50, 800, 0⟩ = 10 ∧
     d_system ⟨110, 55, 850, 0⟩ ⟨100, 50, 800, 0⟩ = 5 ∧
     d_idle ⟨110, 55, 850, 0⟩ ⟨100, 50, 800, 0⟩ = 50 ∧
     d_nice ⟨110, 55, 850, 0⟩ ⟨100, 50, 800, 0⟩ = 0 ∧
     d_total ⟨110, 55, 850, 0⟩ ⟨100, 50, 800, 0⟩ = 65 ∧
     (update_cpu_split (App.init (some ⟨100, 50, 800, 0⟩)) (some ⟨110, 55, 850, 0⟩)).user_pct
        = 1000 / 65 ∧
     (update_cpu_split (App.init (some ⟨100, 50, 800, 0⟩)) (some ⟨110, 55, 850, 0⟩)).system_pct
        = 500 / 65 ∧
     (update_cpu_split (App.init (some ⟨100, 50, 800, 0⟩)) (some ⟨110, 55, 850, 0⟩)).idle_pct
        = 5000 / 65 ∧
     |(update_cpu_split (App.init (some ⟨100, 50, 800, 0⟩)) (some ⟨110, 55, 850, 0⟩)).user_pct
        - 1538 / 100| < 1 / 100 ∧
     |(update_cpu_split (App.init (some ⟨100, 50, 800, 0⟩)) (some ⟨110, 55, 850, 0⟩)).system_pct
        - 769 / 100| < 1 / 100 ∧
     |(update_cpu_split (App.init (some ⟨100, 50, 800, 0⟩)) (some ⟨110, 55, 850, 0⟩)).idle_pct
        - 7692 / 100| < 1 / 100) := by
  constructor
  · intro s prev now h hwf hpos
    rw [update_cpu_split_pos s prev now h (d_total_lt_of_wf now prev hwf) hpos]
    refine ⟨by simp, by simp, by simp⟩
  · have h := update_cpu_split_pos (App.init (some ⟨100, 50, 800, 0⟩)) ⟨100, 50, 800, 0⟩
      ⟨110, 55, 850, 0⟩ rfl (by decide) (by decide)
    have hu : d_user ⟨110, 55, 850, 0⟩ ⟨100, 50, 800, 0⟩ = 10 := by decide
    have hs : d_system ⟨110, 55, 850, 0⟩ ⟨100, 50, 800, 0⟩ = 5 := by decide
    have hi : d_idle ⟨110, 55, 850, 0⟩ ⟨100, 50, 800, 0⟩ = 50 := by decide
    have hn : d_nice ⟨110, 55, 850, 0⟩ ⟨100, 50, 800, 0⟩ = 0 := by decide
    have ht : d_total ⟨110, 55, 850, 0⟩ ⟨100, 50, 800, 0⟩ = 65 := by decide
    have e1 : (update_cpu_split (App.init (some ⟨100, 50, 800, 0⟩))
        (some ⟨110, 55, 850, 0⟩)).user_pct = 1000 / 65 := by
      rw [h]; norm_num [hu, hn, ht]
    have e2 : (update_cpu_split (App.init (some ⟨100, 50, 800, 0⟩))
        (some ⟨110, 55, 850, 0⟩)).system_pct = 500 / 65 := by
      rw [h]; norm_num [hs, ht]
    have e3 : (update_cpu_split (App.init (some ⟨100, 50, 800, 0⟩))
        (some ⟨110, 55, 850, 0⟩)).idle_pct = 5000 / 65 := by
      rw [h]; norm_num [hi, ht]
    refine ⟨hu, hs, hi, hn, ht, e1, e2, e3, ?_, ?_, ?_⟩
    · rw [e1, abs_sub_lt_iff]; constructor <;> norm_num
    · rw [e2, abs_sub_lt_iff]; constructor <;> norm_num
    · rw [e3, abs_sub_lt_iff]; constructor <;> norm_num

/-- C1 witness: the general branch theorem applied at the spec's concrete
scenario, with every hypothesis discharged by evaluation. -/
theorem c1_cpu_percentage_formulas_witness :
    ((App.init (some ⟨100, 50, 800, 0⟩)).prev_ticks = some ⟨100, 50, 800, 0⟩ ∧
     Ticks.wf ⟨110, 55, 850, 0⟩ ∧
     0 < d_total ⟨110, 55, 850, 0⟩ ⟨100, 50, 800, 0⟩) ∧
    (update_cpu_split (App.init (some ⟨100, 50, 800, 0⟩)) (some ⟨110, 55, 850, 0⟩)).user_pct =
        ((d_user ⟨110, 55, 850, 0⟩ ⟨100, 50, 800, 0⟩ +
          d_nice ⟨110, 55, 850, 0⟩ ⟨100, 50, 800, 0⟩ : ℕ) : ℚ) /
          (d_total ⟨110, 55, 850, 0⟩ ⟨100, 50, 800, 0⟩ : ℚ) * 100 :=
  ⟨⟨rfl, by decide, by decide⟩,
    (c1_cpu_percentage_formulas.1 (App.init (some ⟨100, 50, 800, 0⟩)) ⟨100, 50, 800, 0⟩
      ⟨110, 55, 850, 0⟩ rfl (by decide) (by decide)).1⟩

/-- C5: saturating subtraction never yields a negative or wrapped delta
(it equals the mathematical difference clamped at zero, hence is
non-negative and bounded by the minuend — a regressed counter gives zero
movement), and when all four deltas are simultaneously zero the three
percentages are left exactly as in the prior cycle. -/
theorem c5_regression_safe :
    (∀ a b : ℕ,
        (0 : ℤ) ≤ (saturating_sub a b : ℤ) ∧
        (saturating_sub a b : ℤ) = max ((a : ℤ) - (b : ℤ)) 0 ∧
        saturating_sub a b ≤ a) ∧
    (∀ (s : App) (prev now : Ticks), s.prev_ticks = some prev →
        d_user now prev = 0 → d_system now prev = 0 → d_idle now prev = 0 →
        d_nice now prev = 0 →
        (update_cpu_split s (some now)).user_pct = s.user_pct ∧
        (update_cpu_split s (some now)).system_pct = s.system_pct ∧
        (update_cpu_split s (some now)).idle_pct = s.idle_pct) := by
  constructor
  · intro a b
    refine ⟨?_, ?_, ?_⟩ <;> simp only [saturating_sub] <;> omega
  · intro s prev now h h1 h2 h3 h4
    have hz : d_total now prev = 0 := by simp [d_total, h1, h2, h3, h4]
    rw [update_cpu_split_zero s prev now h hz]
    refine ⟨by simp, by simp, by simp⟩

/-- C5 witness: the zero-delta branch at a concrete regressed pair of
snapshots (every field of the current snapshot is below the previous one,
so every saturating delta is zero), hypotheses discharged by evaluation. -/
theorem c5_regression_safe_witness :
    ((App.init (some ⟨9, 9, 9, 9⟩)).prev_ticks = some ⟨9, 9, 9, 9⟩ ∧
     d_user ⟨3, 4, 5, 6⟩ ⟨9, 9, 9, 9⟩ = 0 ∧ d_system ⟨3, 4, 5, 6⟩ ⟨9, 9, 9, 9⟩ = 0 ∧
     d_idle ⟨3, 4, 5, 6⟩ ⟨9, 9, 9, 9⟩ = 0 ∧ d_nice ⟨3, 4, 5, 6⟩ ⟨9, 9, 9, 9⟩ = 0) ∧
    (update_cpu_split (App.init (some ⟨9, 9, 9, 9⟩)) (some ⟨3, 4, 5, 6⟩)).user_pct =
      (App.init (some ⟨9, 9, 9, 9⟩)).user_pct :=
  ⟨⟨rfl, by decide, by decide, by decide, by decide⟩,
    (c5_regression_safe.2 (App.init (some ⟨9, 9, 9, 9⟩)) ⟨9, 9, 9, 9⟩ ⟨3, 4, 5, 6⟩ rfl
      (by decide) (by decide) (by decide) (by decide)).1⟩

/-- C6: with both snapshots present and a zero delta total, the three
percentages are left untouched (no division happens, no default is
substituted) and the current snapshot is still stored as the previous
snapshot for the next invocation. -/
theorem c6_zero_total_keeps_state :
    ∀ (s : App) (prev now : Ticks), s.prev_ticks = some prev →
      d_total now prev = 0 →
      (update_cpu_split s (some now)).user_pct = s.user_pct ∧
      (update_cpu_split s (some now)).system_pct = s.system_pct ∧
      (update_cpu_split s (some now)).idle_pct = s.idle_pct ∧
      (update_cpu_split s (some now)).prev_ticks = some now := by
  intro s prev now h hz
  rw [update_cpu_split_zero s prev now h hz]
  refine ⟨by simp, by simp, by simp, by simp⟩

/-- C6 witness: a stalled (unchanged) snapshot, hypotheses discharged by
evaluation. -/
theorem c6_zero_total_keeps_state_witness :
    ((App.init (some ⟨7, 8, 9, 1⟩)).prev_ticks = some ⟨7, 8, 9, 1⟩ ∧
     d_total ⟨7, 8, 9, 1⟩ ⟨7, 8, 9, 1⟩ = 0) ∧
    (update_cpu_split (App.init (some ⟨7, 8, 9, 1⟩)) (some ⟨7, 8, 9, 1⟩)).prev_ticks =
      some ⟨7, 8, 9, 1⟩ :=
  ⟨⟨rfl, by decide⟩,
    (c6_zero_total_keeps_state (App.init (some ⟨7, 8, 9, 1⟩)) ⟨7, 8, 9, 1⟩ ⟨7, 8, 9, 1⟩ rfl
      (by decide)).2.2.2⟩

/-- C7: when the current tick snapshot is absent, the three percentages are
left unchanged from the prior cycle and each history buffer still receives
exactly one new point, whose value equals the unchanged percentage. -/
theorem c7_absent_snapshot_holds_values :
    ∀ s : App,
      (update_cpu_split s none).user_pct = s.user_pct ∧
      (update_cpu_split s none).system_pct = s.system_pct ∧
      (update_cpu_split s none).idle_pct = s.idle_pct ∧
      (update_cpu_split s none).system_history =
        push_bounded s.system_history ((s.tick_count : ℚ), s.system_pct) HISTORY_LEN ∧
      (update_cpu_split s none).user_history =
        push_bounded s.user_history ((s.tick_count : ℚ), s.user_pct) HISTORY_LEN ∧
      (update_cpu_split s none).system_history.getLast? =
        some ((s.tick_count : ℚ), s.system_pct) ∧
      (update_cpu_split s none).user_history.getLast? =
        some ((s.tick_count : ℚ), s.user_pct) := by
  intro s
  rw [update_cpu_split_none]
  refine ⟨by simp, by simp, by simp, by simp, by simp, ?_, ?_⟩ <;>
    simp [push_bounded, List.getLast?_concat]

/-- C9: over any cycle with both snapshots present, non-decreasing
counters and a positive delta total, the three computed percentages sum to
exactly `100` in exact rational arithmetic. -/
theorem c9_split_sums_to_hundred :
    ∀ (s : App) (prev now : Ticks), s.prev_ticks = some prev → now.wf →
      prev.user ≤ now.user → prev.system ≤ now.system → prev.idle ≤ now.idle →
      prev.nice ≤ now.nice →
      0 < d_total now prev →
      (update_cpu_split s (some now)).user_pct + (update_cpu_split s (some now)).system_pct +
        (update_cpu_split s (some now)).idle_pct = 100 := by
  intro s prev now h hwf _ _ _ _ hpos
  rw [update_cpu_split_pos s prev now h (d_total_lt_of_wf now prev hwf) hpos]
  simp only
  have hT : ((d_total now prev : ℕ) : ℚ) ≠ 0 :=
    Nat.cast_ne_zero.mpr (Nat.pos_iff_ne_zero.mp hpos)
  have hsum : ((d_user now prev : ℕ) : ℚ) + (d_nice now prev : ℚ) + (d_system now prev : ℚ) +
      (d_idle now prev : ℚ) = ((d_total now prev : ℕ) : ℚ) := by
    simp only [d_total]
    push_cast
    ring
  field_simp
  linear_combination (100 : ℚ) * hsum

/-- C9 witness: the concrete end-to-end scenario of the spec, hypotheses
discharged by evaluation. -/
theorem c9_split_sums_to_hundred_witness :
    ((App.init (some ⟨100, 50, 800, 0⟩)).prev_ticks = some ⟨100, 50, 800, 0⟩ ∧
     Ticks.wf ⟨110, 55, 850, 0⟩ ∧ 100 ≤ 110 ∧ 50 ≤ 55 ∧ 800 ≤ 850 ∧ 0 ≤ 0 ∧
     0 < d_total ⟨110, 55, 850, 0⟩ ⟨100, 50, 800, 0⟩) ∧
    (update_cpu_split (App.init (some ⟨100, 50, 800, 0⟩)) (some ⟨110, 55, 850, 0⟩)).user_pct +
      (update_cpu_split (App.init (some ⟨100, 50, 800, 0⟩)) (some ⟨110, 55, 850, 0⟩)).system_pct +
      (update_cpu_split (App.init (some ⟨100, 50, 800, 0⟩)) (some ⟨110, 55, 850, 0⟩)).idle_pct
      = 100 :=
  ⟨⟨rfl, by decide, by decide, by decide, by decide, by decide, by decide⟩,
    c9_split_sums_to_hundred (App.init (some ⟨100, 50, 800, 0⟩)) ⟨100, 50, 800, 0⟩
      ⟨110, 55, 850, 0⟩ rfl (by decide) (by decide) (by decide) (by decide) (by decide)
      (by decide)⟩

lemma append_all_concat (xs : List α) (v : α) :
    append_all (xs ++ [v]) = push_bounded (append_all xs) v HISTORY_LEN := by
  simp [append_all, List.foldl_append]

/-- A run of bounded appends from empty always retains exactly the most
recent `min length HISTORY_LEN` items, in insertion order. -/
lemma append_all_eq_drop (xs : List α) :
    append_all xs = xs.drop (xs.length - HISTORY_LEN) := by
  have hH : 0 < HISTORY_LEN := by norm_num [HISTORY_LEN]
  induction xs using List.reverseRecOn with
  | nil => simp [append_all]
  | append_singleton xs v ih =>
      rw [append_all_concat, ih]
      by_cases h : xs.length < HISTORY_LEN
      · have h0 : xs.length - HISTORY_LEN = 0 := by omega
        have h1 : (xs ++ [v]).length - HISTORY_LEN = 0 := by
          simp only [List.length_append, List.length_singleton]; omega
        rw [h0, h1, List.drop_zero, List.drop_zero, push_bounded, if_neg (by omega)]
      · push_neg at h
        have hlen : (xs.drop (xs.length - HISTORY_LEN)).length = HISTORY_LEN := by
          rw [List.length_drop]; omega
        have hidx : (xs ++ [v]).length - HISTORY_LEN = xs.length - HISTORY_LEN + 1 := by
          simp only [List.length_append, List.length_singleton]; omega
        rw [push_bounded, if_pos (le_of_eq hlen.symm), List.tail_drop, hidx,
          List.drop_append_of_le_length (by omega)]

/-- C8: appending `HISTORY_LEN + k` items (`k ≥ 1`) into an initially empty
bounded history leaves exactly the most recent `HISTORY_LEN` insertions in
their original order; an append at capacity first evicts the single oldest
item (index 0), and the length never exceeds the capacity after an append. -/
theorem c8_bounded_history :
    ∀ {α : Type} (k : ℕ) (xs : List α), 1 ≤ k → xs.length = HISTORY_LEN + k →
      (append_all xs = xs.drop k ∧ (append_all xs).length = HISTORY_LEN) ∧
      (∀ (buf : List α) (v : α), buf.length = HISTORY_LEN →
          push_bounded buf v HISTORY_LEN = buf.tail ++ [v]) ∧
      (∀ (buf : List α) (v : α), buf.length ≤ HISTORY_LEN →
          (push_bounded buf v HISTORY_LEN).length ≤ HISTORY_LEN) := by
  intro α k xs hk hlen
  have hH : 0 < HISTORY_LEN := by norm_num [HISTORY_LEN]
  refine ⟨⟨?_, ?_⟩, ?_, ?_⟩
  · have hidx : xs.length - HISTORY_LEN = k := by omega
    rw [append_all_eq_drop, hidx]
  · rw [append_all_eq_drop, List.length_drop]
    omega
  · intro buf v hbuf
    rw [push_bounded, if_pos (le_of_eq hbuf.symm)]
  · intro buf v hbuf
    rw [push_bounded]
    by_cases h : HISTORY_LEN ≤ buf.length
    · rw [if_pos h]
      simp only [List.length_append, List.length_tail, List.length_singleton]
      omega
    · rw [if_neg h]
      simp only [List.length_append, List.length_singleton]
      omega

/-- C8 witness: `HISTORY_LEN + 1` appends of the naturals `0..180` keep
exactly the last `HISTORY_LEN` of them, hypotheses discharged by
evaluation. -/
theorem c8_bounded_history_witness :
    (1 ≤ 1 ∧ (List.range (HISTORY_LEN + 1)).length = HISTORY_LEN + 1) ∧
    (append_all (List.range (HISTORY_LEN + 1)) = (List.range (HISTORY_LEN + 1)).drop 1 ∧
     (append_all (List.range (HISTORY_LEN + 1))).length = HISTORY_LEN) :=
  ⟨⟨le_refl 1, List.length_range (HISTORY_LEN + 1)⟩,
    (c8_bounded_history 1 (List.range (HISTORY_LEN + 1)) (le_refl 1)
      (List.length_range (HISTORY_LEN + 1))).1⟩

/-- `restore_selection` only ever rewrites `table_selected`. -/
lemma restore_selection_eq (s : App) :
    ∃ t, restore_selection s = { s with table_selected := t } := by
  cases hp : s.selected_pid with
  | none => exact ⟨s.table_selected, by simp only [restore_selection, hp]; rw [← hp]⟩
  | some pid =>
      cases hq : position (fun p => p.pid == pid) s.processes with
      | none =>
          exact ⟨s.table_selected, by simp only [restore_selection, hp, hq]; rw [← hp]⟩
      | some i => exact ⟨some i, by simp only [restore_selection, hp, hq]⟩

/-- In every branch of `update_cpu_split`, each history receives exactly one
bounded append of the point `(tick_count, fresh percentage)`, and the cycle
counter is untouched. -/
lemma update_cpu_split_histories (s : App) (now? : Option Ticks) :
    (update_cpu_split s now?).system_history =
      push_bounded s.system_history
        ((s.tick_count : ℚ), (update_cpu_split s now?).system_pct) HISTORY_LEN ∧
    (update_cpu_split s now?).user_history =
      push_bounded s.user_history
        ((s.tick_count : ℚ), (update_cpu_split s now?).user_pct) HISTORY_LEN ∧
    (update_cpu_split s now?).tick_count = s.tick_count := by
  cases now? with
  | none => exact ⟨rfl, rfl, rfl⟩
  | some now =>
      cases hp : s.prev_ticks with
      | none =>
          simp only [update_cpu_split, hp]
          exact ⟨by trivial, by trivial, by trivial⟩
      | some prev =>
          simp only [update_cpu_split, hp]
          split
          · exact ⟨by trivial, by trivial, by trivial⟩
          · exact ⟨by trivial, by trivial, by trivial⟩

lemma push_bounded_length (buf : List α) (v : α) (m : ℕ) :
    (push_bounded buf v m).length =
      (if m ≤ buf.length then buf.length - 1 else buf.length) + 1 := by
  rw [push_bounded]
  by_cases h : m ≤ buf.length
  · rw [if_pos h, if_pos h]
    simp [List.length_tail]
  · rw [if_neg h, if_neg h]
    simp

/-- Bounded appends with the same sequence index preserve alignment of the
sequence-index columns of two equally indexed buffers. -/
lemma push_bounded_align (A B : List (ℚ × ℚ)) (t x y : ℚ)
    (h : A.map Prod.fst = B.map Prod.fst) :
    (push_bounded A (t, x) HISTORY_LEN).map Prod.fst =
      (push_bounded B (t, y) HISTORY_LEN).map Prod.fst := by
  have hlen : A.length = B.length := by
    rw [← List.length_map A Prod.fst, h, List.length_map]
  by_cases hc : HISTORY_LEN ≤ B.length <;>
    simp [push_bounded, hlen, hc, List.map_tail, h]

/-- C10: a tick preserves point-for-point alignment of the two chart
series — equal lengths and identical `sequence_index` in every position
(stated as equality of the `Prod.fst` columns) — and in every branch each
history receives exactly one bounded append (length grows by one until the
capacity is reached, then stays at the capacity). -/
theorem c10_tick_keeps_histories_aligned :
    ∀ (s : App) (inp : TickInput),
      s.system_history.map Prod.fst = s.user_history.map Prod.fst →
      (tick s inp).system_history.map Prod.fst = (tick s inp).user_history.map Prod.fst ∧
      (tick s inp).system_history.length = (tick s inp).user_history.length ∧
      (tick s inp).system_history.length =
        (if HISTORY_LEN ≤ s.system_history.length then s.system_history.length - 1
         else s.system_history.length) + 1 ∧
      (tick s inp).user_history.length =
        (if HISTORY_LEN ≤ s.user_history.length then s.user_history.length - 1
         else s.user_history.length) + 1 := by
  intro s inp h
  obtain ⟨hs, hu, _⟩ := update_cpu_split_histories s inp.cpu_ticks
  obtain ⟨t, ht⟩ := restore_selection_eq
    { update_cpu_split s inp.cpu_ticks with
      total_memory := inp.total_memory
      used_memory := inp.used_memory
      processes := sort_processes inp.inventory }
  have hsys : (tick s inp).system_history = (update_cpu_split s inp.cpu_ticks).system_history := by
    simp only [tick, update_processes, ht]
  have husr : (tick s inp).user_history = (update_cpu_split s inp.cpu_ticks).user_history := by
    simp only [tick, update_processes, ht]
  have halign :
      (update_cpu_split s inp.cpu_ticks).system_history.map Prod.fst =
        (update_cpu_split s inp.cpu_ticks).user_history.map Prod.fst := by
    rw [hs, hu]
    exact push_bounded_align _ _ _ _ _ h
  refine ⟨?_, ?_, ?_, ?_⟩
  · rw [hsys, husr]; exact halign
  · rw [hsys, husr, ← List.length_map _ Prod.fst, halign, List.length_map]
  · rw [hsys, hs, push_bounded_length]
  · rw [husr, hu, push_bounded_length]

/-- C10 witness: one tick from the freshly initialized state with an absent
snapshot and an empty inventory, the alignment hypothesis discharged by
evaluation. -/
theorem c10_tick_keeps_histories_aligned_witness :
    ((App.init none).system_history.map Prod.fst =
      (App.init none).user_history.map Prod.fst) ∧
    (tick (App.init none) ⟨none, [], 0, 0, 0⟩).system_history.map Prod.fst =
      (tick (App.init none) ⟨none, [], 0, 0, 0⟩).user_history.map Prod.fst :=
  ⟨rfl, (c10_tick_keeps_histories_aligned (App.init none) ⟨none, [], 0, 0, 0⟩ rfl).1⟩

/-- On two ordinary (non-NaN) usage values the comparator orders
descending: `a` may precede `b` exactly when `b`'s value is no larger. -/
lemma proc_le_iff {a b : ProcessInfo} {x y : ℚ}
    (ha : a.cpu_usage = some x) (hb : b.cpu_usage = some y) :
    proc_le a b ↔ y ≤ x := by
  simp only [proc_le, proc_cmp, fcmp, ha, hb, Option.getD_some]
  split_ifs with h1 h2
  · simp [h1.le]
  · simp [not_le.mpr h2]
  · simp [le_of_not_lt h2]

lemma proc_le_total_of_comparable {a b : ProcessInfo}
    (ha : a.cpu_usage ≠ none) (hb : b.cpu_usage ≠ none) :
    proc_le a b ∨ proc_le b a := by
  obtain ⟨x, hx⟩ := Option.ne_none_iff_exists'.mp ha
  obtain ⟨y, hy⟩ := Option.ne_none_iff_exists'.mp hb
  rw [proc_le_iff hx hy, proc_le_iff hy hx]
  exact (le_total y x).imp id id

lemma pairwise_orderedInsert (a : ProcessInfo) (l : List ProcessInfo)
    (ha : a.cpu_usage ≠ none) (hl : ∀ p ∈ l, p.cpu_usage ≠ none)
    (hp : l.Pairwise proc_le) :
    (l.orderedInsert proc_le a).Pairwise proc_le := by
  induction l with
  | nil => simp
  | cons b l ih =>
      have hb : b.cpu_usage ≠ none := hl b (by simp)
      have hlt : ∀ p ∈ l, p.cpu_usage ≠ none := fun p hp' => hl p (by simp [hp'])
      obtain ⟨hbl, hpl⟩ := List.pairwise_cons.mp hp
      rw [List.orderedInsert]
      split_ifs with hab
      · refine List.pairwise_cons.mpr ⟨?_, hp⟩
        intro y hy
        rcases List.mem_cons.mp hy with rfl | hyl
        · exact hab
        · obtain ⟨xa, hxa⟩ := Option.ne_none_iff_exists'.mp ha
          obtain ⟨xb, hxb⟩ := Option.ne_none_iff_exists'.mp hb
          obtain ⟨xy, hxy⟩ := Option.ne_none_iff_exists'.mp (hlt y hyl)
          rw [proc_le_iff hxa hxy]
          exact le_trans ((proc_le_iff hxb hxy).mp (hbl y hyl)) ((proc_le_iff hxa hxb).mp hab)
      · refine List.pairwise_cons.mpr ⟨?_, ih hlt hpl⟩
        intro y hy
        rcases (List.mem_orderedInsert proc_le).mp hy with rfl | hyl
        · exact (proc_le_total_of_comparable ha hb).resolve_left hab
        · exact hbl y hyl

/-- On an inventory with no NaN usage value the ranking sort produces a
list ordered by the comparator. -/
lemma pairwise_sort_processes (l : List ProcessInfo)
    (hl : ∀ p ∈ l, p.cpu_usage ≠ none) :
    (sort_processes l).Pairwise proc_le := by
  induction l with
  | nil => simp [sort_processes]
  | cons a l ih =>
      simp only [sort_processes, List.insertionSort] at *
      refine pairwise_orderedInsert a _ (hl a (by simp)) ?_ (ih ?_)
      · intro p hp'
        exact hl p (by simp [(List.mem_insertionSort proc_le).mp hp'])
      · intro p hp'
        exact hl p (by simp [hp'])

/-- C3: evaluation of the code's comparator at the failing inventory
`[cpu 1, cpu NaN, cpu 2]`.  The `unwrap_or(Equal)` fallback reports both
NaN-involving pairs as `Equal` while the comparable pair is strictly
ordered, so the equivalence induced by the comparator is intransitive (and
so is its non-strict order `proc_le`): `proc_cmp` does not implement a
total order on NaN-carrying inventories.  That is precisely the condition
under which the standard sort of the toolchain this code requires
(Rust ≥ 1.81) is documented to panic, so the claim's sort-level no-panic
guarantee — required by the spec — does not hold of the code. -/
theorem c3_comparator_not_total_order :
    proc_cmp ⟨1, "a", some 1, 0⟩ ⟨2, "b", none, 0⟩ = Ordering.eq ∧
    proc_cmp ⟨2, "b", none, 0⟩ ⟨3, "c", some 2, 0⟩ = Ordering.eq ∧
    proc_cmp ⟨1, "a", some 1, 0⟩ ⟨3, "c", some 2, 0⟩ ≠ Ordering.eq ∧
    proc_le ⟨1, "a", some 1, 0⟩ ⟨2, "b", none, 0⟩ ∧
    proc_le ⟨2, "b", none, 0⟩ ⟨3, "c", some 2, 0⟩ ∧
    ¬ proc_le ⟨1, "a", some 1, 0⟩ ⟨3, "c", some 2, 0⟩ := by decide

/-- C4 counterexample: on an inventory containing a NaN usage value the
ranked list cannot satisfy `a.cpu_usage_pct ≥ b.cpu_usage_pct` for every
adjacent pair under `f32` ordering (NaN is `≥`-incomparable with
everything), so the claim fails as stated: here the length is preserved
but the adjacent-pair invariant is violated. -/
theorem c4_counterexample :
    (sort_processes [⟨1, "a", none, 0⟩, ⟨2, "b", some 5, 0⟩]).length =
      ([⟨1, "a", none, 0⟩, ⟨2, "b", some 5, 0⟩] : List ProcessInfo).length ∧
    ¬ List.Chain' (fun a b : ProcessInfo => cpu_ge a.cpu_usage b.cpu_usage)
        (sort_processes [⟨1, "a", none, 0⟩, ⟨2, "b", some 5, 0⟩]) := by
  constructor
  · decide
  · have hs : sort_processes [⟨1, "a", none, 0⟩, ⟨2, "b", some 5, 0⟩] =
        [⟨1, "a", none, 0⟩, ⟨2, "b", some 5, 0⟩] := by decide
    rw [hs]
    simp [List.chain'_cons, cpu_ge]

/-- C4 (amended): for every raw inventory the ranked list has the same
length as the inventory, and whenever every usage value is comparable
(no NaN), every adjacent pair of the ranked list is non-increasing in
`cpu_usage`. -/
theorem c4_ranked_list_sorted :
    ∀ l : List ProcessInfo,
      (sort_processes l).length = l.length ∧
      ((∀ p ∈ l, p.cpu_usage ≠ none) →
        List.Chain' (fun a b => cpu_ge a.cpu_usage b.cpu_usage) (sort_processes l)) := by
  intro l
  refine ⟨List.length_insertionSort proc_le l, ?_⟩
  intro hl
  have hl' : ∀ p ∈ sort_processes l, p.cpu_usage ≠ none := fun p hp' =>
    hl p ((List.mem_insertionSort proc_le).mp hp')
  refine List.Pairwise.chain' ?_
  refine List.Pairwise.imp_of_mem ?_ (pairwise_sort_processes l hl)
  intro a b hamem hbmem hab
  obtain ⟨xa, hxa⟩ := Option.ne_none_iff_exists'.mp (hl' a hamem)
  obtain ⟨xb, hxb⟩ := Option.ne_none_iff_exists'.mp (hl' b hbmem)
  have : xb ≤ xa := (proc_le_iff hxa hxb).mp hab
  simp only [cpu_ge, hxa, hxb]
  exact this

/-- C4 witness: a concrete NaN-free inventory is ranked into a
non-increasing list of the same length, the hypothesis discharged by
evaluation. -/
theorem c4_ranked_list_sorted_witness :
    (∀ p ∈ ([⟨1, "a", some 2, 0⟩, ⟨2, "b", some 7, 0⟩] : List ProcessInfo),
        p.cpu_usage ≠ none) ∧
    ((sort_processes [⟨1, "a", some 2, 0⟩, ⟨2, "b", some 7, 0⟩]).length =
      ([⟨1, "a", some 2, 0⟩, ⟨2, "b", some 7, 0⟩] : List ProcessInfo).length ∧
     List.Chain' (fun a b => cpu_ge a.cpu_usage b.cpu_usage)
        (sort_processes [⟨1, "a", some 2, 0⟩, ⟨2, "b", some 7, 0⟩])) :=
  ⟨by decide,
    (c4_ranked_list_sorted [⟨1, "a", some 2, 0⟩, ⟨2, "b", some 7, 0⟩]).1,
    (c4_ranked_list_sorted [⟨1, "a", some 2, 0⟩, ⟨2, "b", some 7, 0⟩]).2 (by decide)⟩

lemma position_eq_none_iff (p : α → Bool) (l : List α) :
    position p l = none ↔ ∀ a ∈ l, ¬ p a := by
  induction l with
  | nil => simp [position]
  | cons a l ih =>
      by_cases hpa : p a <;> simp [position, hpa, Option.map_eq_none', ih]

lemma position_eq_some (p : α → Bool) (l : List α) (i : ℕ)
    (h : position p l = some i) : ∃ hb : i < l.length, p (l.get ⟨i, hb⟩) := by
  induction l generalizing i with
  | nil => simp [position] at h
  | cons a l ih =>
      by_cases hpa : p a
      · simp only [position, if_pos hpa, Option.some.injEq] at h
        subst h
        exact ⟨Nat.succ_pos _, hpa⟩
      · simp only [position, if_neg hpa, Option.map_eq_some'] at h
        obtain ⟨j, hj, rfl⟩ := h
        obtain ⟨hb, hpb⟩ := ih j hj
        exact ⟨Nat.succ_lt_succ hb, hpb⟩

/-- C2 counterexample: when the stored id (`99`) is absent from the new
list, `restore_selection` does not leave `selected_index` unset — the
previously stored index (`some 1`, a stale row, not the first row) is kept
verbatim. -/
theorem c2_counterexample :
    (∀ q ∈ ({ App.init none with
                table_selected := some 1
                selected_pid := some 99
                processes := [⟨5, "x", some 1, 0⟩] } : App).processes, q.pid ≠ 99) ∧
    (restore_selection
        { App.init none with
          table_selected := some 1
          selected_pid := some 99
          processes := [⟨5, "x", some 1, 0⟩] }).table_selected = some 1 ∧
    (restore_selection
        { App.init none with
          table_selected := some 1
          selected_pid := some 99
          processes := [⟨5, "x", some 1, 0⟩] }).table_selected ≠ none := by
  refine ⟨by decide, by decide, by decide⟩

/-- C2 (amended): with a stored selected id, if the new ranked list holds
an entity with that id at position `i`, `restore_selection` sets
`selected_index` to `i`; if no entity carries the id, it leaves
`selected_index` unchanged (rather than resetting it to unset); in both
cases `selected_id` is never changed. -/
theorem c2_selection_continuity :
    ∀ (s : App) (pid : ℕ), s.selected_pid = some pid →
      (∀ i, position (fun p => p.pid == pid) s.processes = some i →
          (restore_selection s).table_selected = some i ∧
          ∃ hb : i < s.processes.length, (s.processes.get ⟨i, hb⟩).pid = pid) ∧
      ((∀ q ∈ s.processes, q.pid ≠ pid) →
          (restore_selection s).table_selected = s.table_selected) ∧
      (restore_selection s).selected_pid = s.selected_pid := by
  intro s pid hsel
  refine ⟨?_, ?_, ?_⟩
  · intro i hi
    constructor
    · simp [restore_selection, hsel, hi]
    · obtain ⟨hb, hpb⟩ := position_eq_some _ _ _ hi
      exact ⟨hb, by simpa using hpb⟩
  · intro hnone
    have hpos : position (fun p => p.pid == pid) s.processes = none := by
      rw [position_eq_none_iff]
      intro q hq
      simp [hnone q hq]
    simp [restore_selection, hsel, hpos]
  · obtain ⟨t, ht⟩ := restore_selection_eq s
    rw [ht]

/-- C2 witness: the amended claim applied to a concrete state in which the
stored id `7` sits at position 1 of the ranked list, hypotheses discharged
by evaluation. -/
theorem c2_selection_continuity_witness :
    (({ App.init none with
          selected_pid := some 7
          processes := [⟨3, "p", some 9, 0⟩, ⟨7, "q", some 4, 0⟩] } : App).selected_pid =
        some 7 ∧
     position (fun p => p.pid == 7)
        ({ App.init none with
            selected_pid := some 7
            processes := [⟨3, "p", some 9, 0⟩, ⟨7, "q", some 4, 0⟩] } : App).processes =
        some 1) ∧
    (restore_selection
        { App.init none with
          selected_pid := some 7
          processes := [⟨3, "p", some 9, 0⟩, ⟨7, "q", some 4, 0⟩] }).table_selected =
      some 1 :=
  ⟨⟨rfl, by decide⟩,
    ((c2_selection_continuity
        { App.init none with
          selected_pid := some 7
          processes := [⟨3, "p", some 9, 0⟩, ⟨7, "q", some 4, 0⟩] } 7 rfl).1 1
      (by decide)).1⟩

end Syswatch
